import Mathlib

/-!
Verification of the finance-manager ledger core.

Shallow embedding of `finance_classes.py` (classes `TransactionType`,
`Category`, `Transaction`, `FinanceManager`).

Modelling decisions, stated once:

* Python `float` amounts are modelled as `ℚ`.  The CSV layer is modelled at
  the field level: `csv.writer`/`csv.DictReader` round-trip every string
  field exactly, and Python's `repr(float)`/`float(str)` round-trip every
  float exactly, so a saved Amount cell carries its value `q : ℚ` directly
  (`AmountCell.parsable q`); a cell whose text `float()` rejects is
  `AmountCell.unparsable s`.
* The backing file is modelled as `Option (List CsvRow)` (`none` = the file
  does not exist, which raises `FileNotFoundError` on open for reading).
  The header row is the fixed five-column header that `save_to_file` always
  writes (`Amount,Category,Type,Date,Description`); `csv.DictReader` under
  that header maps a physically short data row to a dict in which the
  missing trailing keys are bound to Python `None` (its `restval`), hence
  every field of `CsvRow` is an `Option`, `none` standing for Python `None`.
  In particular `row.get("Description", "")` never takes its `""` default —
  the key always exists under the fixed header — so it is modelled as the
  plain field access that it is.
* `Transaction.date` and `Transaction.description` are `Option String`
  because `load_from_file` stores `row["Date"]` / `row.get("Description","")`
  verbatim, and these are `None` for short rows.  GUI-built transactions
  always carry `some` strings.
* File writes can fail (permissions, disk full); the flag
  `World.writeFails` says whether the next `open(..., "w")`/write raises.
  Exceptions are modelled as `Except String`, the string naming the Python
  exception.
-/

/-- Embeds `class TransactionType(Enum)`: INCOME = "Доход", EXPENSE = "Расход". -/
inductive TransactionType where
  | income
  | expense
deriving DecidableEq, Repr

/-- The `.value` of the enum member (its display label). -/
def TransactionType.value : TransactionType → String
  | .income => "Доход"
  | .expense => "Расход"

/-- Embeds `class Category`: name + transaction type. -/
structure Category where
  name : String
  type : TransactionType
deriving DecidableEq, Repr

/-- Embeds `class Transaction`: amount, category reference, date, description.
`date`/`description` are `Option String`: `none` models Python `None`,
which `load_from_file` can store for a short CSV row. -/
structure Transaction where
  amount : ℚ
  category : Category
  date : Option String
  description : Option String
deriving DecidableEq, Repr

/-- The Amount cell of a CSV data row, seen through `float()`:
`parsable q` is a cell whose text `float()` parses to `q` (in particular
everything `save_to_file` writes), `unparsable s` is a cell with text `s`
that `float()` raises `ValueError` on. -/
inductive AmountCell where
  | parsable (q : ℚ)
  | unparsable (s : String)
deriving DecidableEq, Repr

/-- A data row of the backing CSV file as `csv.DictReader` presents it
under the fixed header `Amount,Category,Type,Date,Description`:
each field is `none` when the physical row is too short (DictReader's
`restval = None`). -/
structure CsvRow where
  amount : Option AmountCell
  category : Option String
  type : Option String
  date : Option String
  description : Option String
deriving DecidableEq, Repr

/-- The backing CSV file: the list of data rows below the fixed header. -/
abbrev CsvFile := List CsvRow

/-- The file system and I/O behaviour visible to the manager: the single
backing file (`none` = does not exist) and whether the next write raises
(permissions, disk full). -/
structure World where
  file : Option CsvFile
  writeFails : Bool
deriving DecidableEq, Repr

/-- How `csv.writer` converts a Python value to cell text; `None` is written
as the empty string, a `str` is written as itself. -/
def csvCell : Option String → String
  | some s => s
  | none => ""

/-- Embeds `class FinanceManager`: filename, transaction list, category catalog. -/
structure FinanceManager where
  filename : String
  transactions : List Transaction
  categories : List Category
deriving DecidableEq, Repr

namespace FinanceManager

/-- The hard-coded category catalog built in `FinanceManager.__init__`. -/
def defaultCategories : List Category :=
  [ { name := "Зарплата", type := TransactionType.income },
    { name := "Инвестиции", type := TransactionType.income },
    { name := "Продукты", type := TransactionType.expense },
    { name := "Транспорт", type := TransactionType.expense },
    { name := "Развлечения", type := TransactionType.expense } ]

/-- Body of the `for row in reader` loop of `load_from_file`: resolve the
category by name (`next((cat for cat in self.categories if cat.name ==
row["Category"]), None)`), and if found build the transaction, applying
`float` to `row["Amount"]` — which raises `ValueError` on unparseable text
and `TypeError` on `None` — else skip the row. -/
def loadRow (cats : List Category) (row : CsvRow) :
    Except String (Option Transaction) :=
  match cats.find? (fun cat => row.category == some cat.name) with
  | some category =>
      match row.amount with
      | some (AmountCell.parsable q) =>
          Except.ok (some { amount := q, category := category,
                            date := row.date, description := row.description })
      | some (AmountCell.unparsable s) =>
          Except.error ("ValueError: could not convert string to float: " ++ s)
      | none =>
          Except.error "TypeError: float() argument must be a string or a real number, not NoneType"
  | none => Except.ok none

/-- The whole `for row in reader` loop: rows processed in order, loaded
transactions appended in order, the first raised exception aborts. -/
def loadRows (cats : List Category) : List CsvRow → Except String (List Transaction)
  | [] => Except.ok []
  | row :: rest =>
      match loadRow cats row with
      | Except.error e => Except.error e
      | Except.ok t? =>
          match loadRows cats rest with
          | Except.error e => Except.error e
          | Except.ok ts =>
              Except.ok (match t? with
                         | some t => t :: ts
                         | none => ts)

/-- Embeds `load_from_file`: a missing file (`FileNotFoundError`) is caught and
leaves `self.transactions = []`; otherwise the rows are processed and the
resulting transactions are appended to `self.transactions` (which is `[]`
at the construction-time call). Uncaught exceptions from the loop
propagate. -/
def load_from_file (m : FinanceManager) (file : Option CsvFile) :
    Except String FinanceManager :=
  match file with
  | none => Except.ok { m with transactions := [] }
  | some rows =>
      match loadRows m.categories rows with
      | Except.ok ts => Except.ok { m with transactions := m.transactions ++ ts }
      | Except.error e => Except.error e

/-- Embeds `FinanceManager.__init__(filename)`: empty transaction list, the
hard-coded catalog, then an eager `load_from_file` against the current
backing file. -/
def init (filename : String) (file : Option CsvFile) :
    Except String FinanceManager :=
  load_from_file { filename := filename, transactions := [],
                   categories := defaultCategories } file

/-- The row `save_to_file` writes for one transaction:
`[amount, category.name, category.type.value, date, description]`,
with `csv.writer` turning `None` into the empty cell. -/
def serializeRow (t : Transaction) : CsvRow :=
  { amount := some (AmountCell.parsable t.amount),
    category := some t.category.name,
    type := some t.category.type.value,
    date := some (csvCell t.date),
    description := some (csvCell t.description) }

/-- Embeds `save_to_file`: opens the backing file for writing (raising if the
write fails) and overwrites it with the header plus one row per
transaction, in order. -/
def save_to_file (m : FinanceManager) (w : World) : Except String World :=
  if w.writeFails then
    Except.error "OSError: could not write backing file"
  else
    Except.ok { w with file := some (m.transactions.map serializeRow) }

/-- Embeds `add_transaction`: append, then immediately save.  The mutated manager
is returned alongside the outcome of the save (an exception from the save
propagates to the caller with the append already done). -/
def add_transaction (m : FinanceManager) (t : Transaction) (w : World) :
    FinanceManager × Except String World :=
  let m' := { m with transactions := m.transactions ++ [t] }
  (m', m'.save_to_file w)

/-- Embeds `delete_transaction(index)`: if `0 <= index < len(self.transactions)`,
delete the element at that position and save; otherwise do nothing. -/
def delete_transaction (m : FinanceManager) (index : Int) (w : World) :
    FinanceManager × Except String World :=
  if 0 ≤ index ∧ index < (m.transactions.length : Int) then
    let m' := { m with transactions := m.transactions.eraseIdx index.toNat }
    (m', m'.save_to_file w)
  else
    (m, Except.ok w)

/-- Embeds `get_balance`: income sum minus expense sum over the whole list. -/
def get_balance (m : FinanceManager) : ℚ :=
  let income :=
    ((m.transactions.filter
        (fun t => t.category.type == TransactionType.income)).map
      Transaction.amount).sum
  let expenses :=
    ((m.transactions.filter
        (fun t => t.category.type == TransactionType.expense)).map
      Transaction.amount).sum
  income - expenses

/-- One iteration of the `get_category_summary` loop over a Python dict,
modelled as an insertion-ordered association list with unique keys:
`summary[cat_name] = 0.0` when absent, then `+=`/`-=` the amount. -/
def summaryStep (summary : List (String × ℚ)) (transaction : Transaction) :
    List (String × ℚ) :=
  let catName := transaction.category.name
  let summary :=
    if summary.any (fun p => p.1 == catName) then summary
    else summary ++ [(catName, 0)]
  summary.map (fun p =>
    if p.1 == catName then
      (p.1, if transaction.category.type == TransactionType.income then
              p.2 + transaction.amount
            else
              p.2 - transaction.amount)
    else p)

/-- Embeds `get_category_summary`: fold the loop body over the transactions,
starting from the empty dict. -/
def get_category_summary (m : FinanceManager) : List (String × ℚ) :=
  m.transactions.foldl summaryStep []

/-- Python `summary[name]` on the resulting dict (insertion-ordered
association list with unique keys): `none` = `KeyError`. -/
def dictGet (d : List (String × ℚ)) (k : String) : Option ℚ :=
  (d.find? (fun p => p.1 == k)).map Prod.snd

end FinanceManager

/-- The signed contribution of one transaction, as the spec words it:
its amount when the category's type is Income, its negation when Expense. -/
def signedAmount (t : Transaction) : ℚ :=
  if t.category.type == TransactionType.income then t.amount else -t.amount

/-!
Claims.
-/

/-- C6: constructing a store against a nonexistent backing file raises no
error and yields an empty transaction sequence, and `get_balance` on that
fresh store returns `0`. -/
theorem FinanceManager.empty_start (fn : String) :
    FinanceManager.init fn none =
      Except.ok { filename := fn, transactions := [],
                  categories := FinanceManager.defaultCategories } ∧
    FinanceManager.get_balance
        { filename := fn, transactions := [],
          categories := FinanceManager.defaultCategories } = 0 := by
  refine ⟨rfl, ?_⟩
  simp [FinanceManager.get_balance]

/-- C4: `delete_transaction index` with `0 ≤ index < length` removes exactly
the transaction at that position and then saves; any other integer index is
a silent no-op: no error, no save, memory and backing file untouched. -/
theorem FinanceManager.delete_transaction_bounds (m : FinanceManager)
    (i : Int) (w : World) :
    m.delete_transaction i w =
      if 0 ≤ i ∧ i < (m.transactions.length : Int) then
        ({ m with transactions :=
             m.transactions.take i.toNat ++ m.transactions.drop (i.toNat + 1) },
         FinanceManager.save_to_file
           { m with transactions :=
               m.transactions.take i.toNat ++ m.transactions.drop (i.toNat + 1) } w)
      else (m, Except.ok w) := by
  unfold FinanceManager.delete_transaction
  split
  · rw [List.eraseIdx_eq_take_drop_succ]
  · rfl

/-- C7: when the backing-file write fails, both `add_transaction` and an
in-range `delete_transaction` propagate the error to the caller while the
in-memory list keeps the already-performed append / removal. -/
theorem FinanceManager.write_failure_propagates (m : FinanceManager)
    (t : Transaction) (i : Int) (w : World)
    (hfail : w.writeFails = true)
    (hlo : 0 ≤ i) (hhi : i < (m.transactions.length : Int)) :
    (m.add_transaction t w).2 =
        Except.error "OSError: could not write backing file" ∧
    (m.add_transaction t w).1.transactions = m.transactions ++ [t] ∧
    (m.delete_transaction i w).2 =
        Except.error "OSError: could not write backing file" ∧
    (m.delete_transaction i w).1.transactions =
        m.transactions.eraseIdx i.toNat := by
  refine ⟨?_, rfl, ?_, ?_⟩
  · simp [FinanceManager.add_transaction, FinanceManager.save_to_file, hfail]
  · simp [FinanceManager.delete_transaction, FinanceManager.save_to_file,
          hfail, hlo, hhi]
  · simp [FinanceManager.delete_transaction, hlo, hhi]

/-- Witness for C7 at a one-element store, index 0, failing write. -/
theorem FinanceManager.write_failure_propagates_witness :
    (FinanceManager.add_transaction
        { filename := "transactions.csv",
          transactions := [{ amount := 5,
                             category := { name := "Зарплата",
                                           type := TransactionType.income },
                             date := some "2024-01-05", description := some "" }],
          categories := FinanceManager.defaultCategories }
        { amount := 7,
          category := { name := "Продукты", type := TransactionType.expense },
          date := some "2024-01-06", description := some "milk" }
        { file := none, writeFails := true }).2 =
      Except.error "OSError: could not write backing file" := by
  exact (FinanceManager.write_failure_propagates _ _ 0 _ rfl (by decide)
    (by decide)).1

/-!
Helper lemmas about the summary dictionary and signed sums.
-/

/-- Computation of `==` on the two-valued enum, for `simp`. -/
theorem beq_income_income :
    (TransactionType.income == TransactionType.income) = true := rfl

/-- Computation of `==` on the two-valued enum, for `simp`. -/
theorem beq_income_expense :
    (TransactionType.income == TransactionType.expense) = false := rfl

/-- Computation of `==` on the two-valued enum, for `simp`. -/
theorem beq_expense_income :
    (TransactionType.expense == TransactionType.income) = false := rfl

/-- Computation of `==` on the two-valued enum, for `simp`. -/
theorem beq_expense_expense :
    (TransactionType.expense == TransactionType.expense) = true := rfl

/-- Lookup in a dict with one more entry in front. -/
theorem dictGet_cons (p : String × ℚ) (l : List (String × ℚ)) (k : String) :
    FinanceManager.dictGet (p :: l) k =
      if p.1 == k then some p.2 else FinanceManager.dictGet l k := by
  unfold FinanceManager.dictGet
  cases hpk : (p.1 == k) <;> simp [List.find?, hpk]

/-- The in-place dict update of `get_category_summary` touches only the key
being updated. -/
theorem dictGet_map_update (l : List (String × ℚ)) (c k : String)
    (f : ℚ → ℚ) :
    FinanceManager.dictGet
        (l.map (fun p => if p.1 == c then (p.1, f p.2) else p)) k =
      if c == k then (FinanceManager.dictGet l k).map f
      else FinanceManager.dictGet l k := by
  induction l with
  | nil =>
      cases hck : (c == k) <;> simp [FinanceManager.dictGet, hck]
  | cons p l ih =>
      rw [List.map_cons, dictGet_cons, dictGet_cons, ih]
      by_cases hpc : p.1 = c
      · have h1 : (if p.1 == c then (p.1, f p.2) else p) = (p.1, f p.2) := by
          simp [hpc]
        rw [h1]
        by_cases hck : c = k
        · have hpk : p.1 = k := hpc.trans hck
          simp [hpk, hck]
        · have hpk : ¬p.1 = k := by rw [hpc]; exact hck
          simp [hpk, hck]
      · have h1 : (if p.1 == c then (p.1, f p.2) else p) = p := by
          simp [hpc]
        rw [h1]
        by_cases hck : c = k
        · have hpk : ¬p.1 = k := fun h => hpc (h.trans hck.symm)
          simp [hpk, hck]
        · by_cases hpk : p.1 = k
          · simp [hpk, hck]
          · simp [hpk, hck]

/-- Appending a fresh key at the end of the dict is invisible to lookups of
other keys and gives the new key its initial value. -/
theorem dictGet_append_single (l : List (String × ℚ)) (c k : String)
    (v : ℚ) :
    FinanceManager.dictGet (l ++ [(c, v)]) k =
      (FinanceManager.dictGet l k).or
        (if c == k then some v else none) := by
  unfold FinanceManager.dictGet
  rw [List.find?_append]
  cases hfind : l.find? (fun p => p.1 == k) with
  | some p => simp
  | none =>
      by_cases hck : (c == k) <;> simp [List.find?, hck]

/-- A key that `any` does not see is not found. -/
theorem find?_eq_none_of_any_eq_false (l : List (String × ℚ)) (c : String)
    (h : l.any (fun p => p.1 == c) = false) :
    l.find? (fun p => p.1 == c) = none := by
  rw [List.find?_eq_none]
  intro p hp hpc
  have hall : l.any (fun p => p.1 == c) = true := by
    rw [List.any_eq_true]
    exact ⟨p, hp, hpc⟩
  rw [hall] at h
  exact Bool.noConfusion h

/-- A key that `any` sees is found. -/
theorem dictGet_isSome_of_any_eq_true (l : List (String × ℚ)) (c : String)
    (h : l.any (fun p => p.1 == c) = true) :
    (FinanceManager.dictGet l c).isSome = true := by
  unfold FinanceManager.dictGet
  rw [List.any_eq_true] at h
  obtain ⟨p, hp, hpc⟩ := h
  have : (l.find? (fun p => p.1 == c)).isSome = true := by
    rw [List.find?_isSome]
    exact ⟨p, hp, hpc⟩
  cases hfind : l.find? (fun p => p.1 == c) with
  | none => rw [hfind] at this; simp at this
  | some q => simp

/-- Rephrasing of `signedAmount` through the propositional form of its condition. -/
theorem signedAmount_eq (t : Transaction) :
    signedAmount t =
      if t.category.type = TransactionType.income then t.amount
      else -t.amount := by
  unfold signedAmount
  cases h : t.category.type <;> simp [h]

/-- The branch of the update written by the loop body equals adding the
transaction's signed contribution. -/
theorem update_value_eq (t : Transaction) (v : ℚ) :
    (if t.category.type = TransactionType.income then v + t.amount
     else v - t.amount) = v + signedAmount t := by
  rw [signedAmount_eq]
  cases h : t.category.type <;> simp [h, sub_eq_add_neg]

/-- One loop iteration of `get_category_summary` changes the lookup of `k`
exactly by the transaction's signed contribution when the category name is
`k`, and not at all otherwise. -/
theorem dictGet_summaryStep (acc : List (String × ℚ)) (t : Transaction)
    (k : String) :
    FinanceManager.dictGet (FinanceManager.summaryStep acc t) k =
      if t.category.name == k then
        some ((FinanceManager.dictGet acc k).getD 0 + signedAmount t)
      else FinanceManager.dictGet acc k := by
  unfold FinanceManager.summaryStep
  cases hany : acc.any (fun p => p.1 == t.category.name) with
  | true =>
      simp only [hany, if_true]
      rw [dictGet_map_update acc t.category.name k
        (fun v => if t.category.type == TransactionType.income then
                    v + t.amount else v - t.amount)]
      cases htk : (t.category.name == k) with
      | true =>
          have htk' : t.category.name = k := by simpa using htk
          subst htk'
          simp only [if_pos rfl]
          have hsome := dictGet_isSome_of_any_eq_true acc t.category.name hany
          cases hget : FinanceManager.dictGet acc t.category.name with
          | none => rw [hget] at hsome; simp at hsome
          | some v => simp [update_value_eq]
      | false =>
          have htk' : t.category.name ≠ k := by simpa using htk
          simp [htk, htk']
  | false =>
      simp only [hany, if_false, Bool.false_eq_true]
      rw [dictGet_map_update (acc ++ [(t.category.name, 0)]) t.category.name k
        (fun v => if t.category.type == TransactionType.income then
                    v + t.amount else v - t.amount),
        dictGet_append_single]
      have hnone : FinanceManager.dictGet acc t.category.name = none := by
        unfold FinanceManager.dictGet
        rw [find?_eq_none_of_any_eq_false acc _ hany]
        rfl
      cases htk : (t.category.name == k) with
      | true =>
          have htk' : t.category.name = k := by simpa using htk
          subst htk'
          simp [hnone, update_value_eq]
      | false =>
          have htk' : t.category.name ≠ k := by simpa using htk
          simp [htk, htk']

/-- Folding the loop body over a transaction list: the lookup of `k` in the
result is the lookup in the accumulator plus the signed sum of the
transactions whose category name is `k` (with the key present exactly when
it was present before or some transaction carries it). -/
theorem dictGet_foldl_summaryStep (ts : List Transaction)
    (acc : List (String × ℚ)) (k : String) :
    FinanceManager.dictGet (ts.foldl FinanceManager.summaryStep acc) k =
      match FinanceManager.dictGet acc k with
      | some v =>
          some (v + ((ts.filter (fun t => t.category.name == k)).map
                      signedAmount).sum)
      | none =>
          if ts.any (fun t => t.category.name == k) then
            some (((ts.filter (fun t => t.category.name == k)).map
                    signedAmount).sum)
          else none := by
  induction ts generalizing acc with
  | nil =>
      cases h : FinanceManager.dictGet acc k <;> simp [h]
  | cons t ts ih =>
      rw [List.foldl_cons, ih, dictGet_summaryStep]
      cases htk : (t.category.name == k) with
      | false =>
          simp only [htk, Bool.false_eq_true, if_false, List.filter_cons,
            List.any_cons, Bool.false_or]
      | true =>
          simp only [htk, if_true, List.filter_cons, List.any_cons,
            Bool.true_or, List.map_cons, List.sum_cons]
          cases hacc : FinanceManager.dictGet acc k with
          | none => simp [add_comm]
          | some v => simp [add_comm, add_assoc, add_left_comm]

/-- C3: `get_category_summary` maps every category name with at least one
transaction to the signed sum of that category's amounts (income added,
expense subtracted), and maps no other name (a category with no
transactions is absent, not present with a zero). -/
theorem FinanceManager.get_category_summary_correct (m : FinanceManager)
    (name : String) :
    FinanceManager.dictGet m.get_category_summary name =
      if m.transactions.any (fun t => t.category.name == name) then
        some (((m.transactions.filter
                  (fun t => t.category.name == name)).map signedAmount).sum)
      else none := by
  have h := dictGet_foldl_summaryStep m.transactions [] name
  have h0 : FinanceManager.dictGet [] name = none := rfl
  rw [h0] at h
  exact h

/-- C2: `get_balance` is the income sum minus the expense sum, and is
invariant under permutation of the transaction sequence (insertion order
does not matter). -/
theorem FinanceManager.get_balance_correct (m m' : FinanceManager)
    (h : m.transactions.Perm m'.transactions) :
    m.get_balance =
      ((m.transactions.filter
          (fun t => t.category.type == TransactionType.income)).map
        Transaction.amount).sum -
      ((m.transactions.filter
          (fun t => t.category.type == TransactionType.expense)).map
        Transaction.amount).sum ∧
    m.get_balance = m'.get_balance := by
  refine ⟨rfl, ?_⟩
  unfold FinanceManager.get_balance
  rw [((h.filter _).map _).sum_eq, ((h.filter _).map _).sum_eq]

/-- Witness for C2: two stores holding the same two transactions in the
two possible orders have equal balances. -/
theorem FinanceManager.get_balance_correct_witness :
    FinanceManager.get_balance
        { filename := "transactions.csv",
          transactions :=
            [{ amount := 30000,
               category := { name := "Зарплата",
                             type := TransactionType.income },
               date := some "2024-01-05", description := some "" },
             { amount := 5000,
               category := { name := "Продукты",
                             type := TransactionType.expense },
               date := some "2024-01-06", description := some "milk" }],
          categories := FinanceManager.defaultCategories } =
      FinanceManager.get_balance
        { filename := "transactions.csv",
          transactions :=
            [{ amount := 5000,
               category := { name := "Продукты",
                             type := TransactionType.expense },
               date := some "2024-01-06", description := some "milk" },
             { amount := 30000,
               category := { name := "Зарплата",
                             type := TransactionType.income },
               date := some "2024-01-05", description := some "" }],
          categories := FinanceManager.defaultCategories } :=
  (FinanceManager.get_balance_correct _ _ (List.Perm.swap _ _ _)).2

/-- The in-place dict update preserves the key sequence. -/
theorem map_fst_map_update (l : List (String × ℚ)) (c : String)
    (f : ℚ → ℚ) :
    (l.map (fun p => if p.1 == c then (p.1, f p.2) else p)).map Prod.fst =
      l.map Prod.fst := by
  induction l with
  | nil => rfl
  | cons p l ih =>
      simp only [List.map_cons, ih]
      congr 1
      split <;> rfl

/-- Updating a key no entry carries changes nothing. -/
theorem map_update_id (l : List (String × ℚ)) (c : String) (f : ℚ → ℚ)
    (h : ∀ p ∈ l, ¬p.1 = c) :
    l.map (fun p => if p.1 == c then (p.1, f p.2) else p) = l := by
  induction l with
  | nil => rfl
  | cons p l ih =>
      rw [List.map_cons]
      have hp : ¬p.1 = c := h p (List.mem_cons_self p l)
      have hupd : (if p.1 == c then (p.1, f p.2) else p) = p := by simp [hp]
      rw [hupd, ih (fun q hq => h q (List.mem_cons_of_mem p hq))]

/-- When the keys are unique and the updated key is present, an update that
adds `d` to its value adds `d` to the total of the dict's values. -/
theorem map_snd_sum_update (l : List (String × ℚ)) (c : String)
    (f : ℚ → ℚ) (d : ℚ) (hf : ∀ v, f v = v + d)
    (hnd : (l.map Prod.fst).Nodup) (hc : c ∈ l.map Prod.fst) :
    ((l.map (fun p => if p.1 == c then (p.1, f p.2) else p)).map
        Prod.snd).sum = (l.map Prod.snd).sum + d := by
  induction l with
  | nil => simp at hc
  | cons p l ih =>
      rw [List.map_cons, List.nodup_cons] at hnd
      rw [List.map_cons] at hc
      by_cases hpc : p.1 = c
      · have hupd : (if p.1 == c then (p.1, f p.2) else p) = (p.1, f p.2) := by
          simp [hpc]
        have hrest : ∀ q ∈ l, ¬q.1 = c := by
          intro q hq hqc
          exact hnd.1 (hpc ▸ hqc ▸ List.mem_map_of_mem Prod.fst hq)
        rw [List.map_cons, hupd, map_update_id l c f hrest]
        simp only [List.map_cons, List.sum_cons, hf p.2]
        ring
      · have hupd : (if p.1 == c then (p.1, f p.2) else p) = p := by
          simp [hpc]
        have hc' : c ∈ l.map Prod.fst := by
          rcases List.mem_cons.mp hc with hcp | hcl
          · exact absurd hcp.symm hpc
          · exact hcl
        rw [List.map_cons, hupd]
        simp only [List.map_cons, List.sum_cons]
        rw [ih hnd.2 hc']
        ring

/-- The update branch written by the loop body, as a `+ signedAmount`. -/
theorem update_value_beq (t : Transaction) (v : ℚ) :
    (if t.category.type == TransactionType.income then v + t.amount
     else v - t.amount) = v + signedAmount t := by
  rw [signedAmount_eq]
  cases h : t.category.type <;> simp [sub_eq_add_neg]

/-- One loop iteration keeps the keys of the summary dict unique. -/
theorem keysNodup_summaryStep (acc : List (String × ℚ)) (t : Transaction)
    (hnd : (acc.map Prod.fst).Nodup) :
    ((FinanceManager.summaryStep acc t).map Prod.fst).Nodup := by
  unfold FinanceManager.summaryStep
  cases hany : acc.any (fun p => p.1 == t.category.name) with
  | true =>
      simp only [hany, if_true]
      rw [map_fst_map_update acc t.category.name
        (fun v => if t.category.type == TransactionType.income then
                    v + t.amount else v - t.amount)]
      exact hnd
  | false =>
      simp only [hany, Bool.false_eq_true, if_false]
      rw [map_fst_map_update (acc ++ [(t.category.name, 0)]) t.category.name
        (fun v => if t.category.type == TransactionType.income then
                    v + t.amount else v - t.amount),
        List.map_append]
      have hmem : t.category.name ∉ acc.map Prod.fst := by
        intro hmem
        obtain ⟨p, hp, hpeq⟩ := List.mem_map.mp hmem
        have hany' : acc.any (fun p => p.1 == t.category.name) = true := by
          rw [List.any_eq_true]
          exact ⟨p, hp, by simp [hpeq]⟩
        rw [hany'] at hany
        exact Bool.noConfusion hany
      simp [List.nodup_append, hnd, hmem]

/-- One loop iteration adds the transaction's signed contribution to the
total of the summary dict's values. -/
theorem valueSum_summaryStep (acc : List (String × ℚ)) (t : Transaction)
    (hnd : (acc.map Prod.fst).Nodup) :
    ((FinanceManager.summaryStep acc t).map Prod.snd).sum =
      (acc.map Prod.snd).sum + signedAmount t := by
  unfold FinanceManager.summaryStep
  cases hany : acc.any (fun p => p.1 == t.category.name) with
  | true =>
      simp only [hany, if_true]
      have hc : t.category.name ∈ acc.map Prod.fst := by
        rw [List.any_eq_true] at hany
        obtain ⟨p, hp, hpeq⟩ := hany
        have hp1 : p.1 = t.category.name := by simpa using hpeq
        exact hp1 ▸ List.mem_map_of_mem Prod.fst hp
      rw [map_snd_sum_update acc t.category.name
        (fun v => if t.category.type == TransactionType.income then
                    v + t.amount else v - t.amount)
        (signedAmount t) (update_value_beq t) hnd hc]
  | false =>
      simp only [hany, Bool.false_eq_true, if_false]
      have hmem : t.category.name ∉ acc.map Prod.fst := by
        intro hmem
        obtain ⟨p, hp, hpeq⟩ := List.mem_map.mp hmem
        have hany' : acc.any (fun p => p.1 == t.category.name) = true := by
          rw [List.any_eq_true]
          exact ⟨p, hp, by simp [hpeq]⟩
        rw [hany'] at hany
        exact Bool.noConfusion hany
      have hnd' : ((acc ++ [(t.category.name, 0)]).map Prod.fst).Nodup := by
        rw [List.map_append]
        simp [List.nodup_append, hnd, hmem]
      have hc : t.category.name ∈ (acc ++ [(t.category.name, 0)]).map Prod.fst := by
        rw [List.map_append]
        simp
      rw [map_snd_sum_update (acc ++ [(t.category.name, 0)]) t.category.name
        (fun v => if t.category.type == TransactionType.income then
                    v + t.amount else v - t.amount)
        (signedAmount t) (update_value_beq t) hnd' hc]
      simp

/-- Folding the loop body: the total of the summary values grows by the
signed sum of the processed transactions. -/
theorem valueSum_foldl (ts : List Transaction) (acc : List (String × ℚ))
    (hnd : (acc.map Prod.fst).Nodup) :
    ((ts.foldl FinanceManager.summaryStep acc).map Prod.snd).sum =
      (acc.map Prod.snd).sum + (ts.map signedAmount).sum := by
  induction ts generalizing acc with
  | nil => simp
  | cons t ts ih =>
      rw [List.foldl_cons, ih _ (keysNodup_summaryStep acc t hnd),
        valueSum_summaryStep acc t hnd]
      simp [add_assoc]

/-- Income-minus-expense equals the sum of signed contributions. -/
theorem signed_split (ts : List Transaction) :
    ((ts.filter (fun t => t.category.type == TransactionType.income)).map
        Transaction.amount).sum -
      ((ts.filter (fun t => t.category.type == TransactionType.expense)).map
        Transaction.amount).sum =
      (ts.map signedAmount).sum := by
  induction ts with
  | nil => simp
  | cons t ts ih =>
      simp only [List.filter_cons, List.map_cons, List.sum_cons]
      cases h : t.category.type with
      | income =>
          simp only [beq_income_income, if_true, beq_income_expense,
            Bool.false_eq_true, if_false, List.map_cons, List.sum_cons,
            signedAmount_eq, h, if_pos rfl]
          rw [← ih]
          ring
      | expense =>
          simp only [beq_expense_income, Bool.false_eq_true, if_false,
            beq_expense_expense, if_true, List.map_cons, List.sum_cons,
            signedAmount_eq, h]
          rw [← ih]
          have : ¬(TransactionType.expense = TransactionType.income) := by
            intro hx
            exact TransactionType.noConfusion hx
          rw [if_neg this]
          ring

/-- C10: for a store whose transactions all reference catalog categories,
`get_balance` equals the sum of the values of the mapping returned by
`get_category_summary` — the two read-only queries agree on the net
total. -/
theorem FinanceManager.balance_eq_summary_total (m : FinanceManager)
    (h : ∀ t ∈ m.transactions, t.category ∈ FinanceManager.defaultCategories) :
    m.get_balance = (m.get_category_summary.map Prod.snd).sum := by
  have h1 := valueSum_foldl m.transactions [] (by simp)
  unfold FinanceManager.get_category_summary
  rw [h1]
  simp only [List.map_nil, List.sum_nil, zero_add]
  rw [← signed_split]
  rfl

/-- Witness for C10 at the two-transaction end-to-end scenario store. -/
theorem FinanceManager.balance_eq_summary_total_witness :
    FinanceManager.get_balance
        { filename := "transactions.csv",
          transactions :=
            [{ amount := 30000,
               category := { name := "Зарплата",
                             type := TransactionType.income },
               date := some "2024-01-05", description := some "" },
             { amount := 5000,
               category := { name := "Продукты",
                             type := TransactionType.expense },
               date := some "2024-01-06", description := some "milk" }],
          categories := FinanceManager.defaultCategories } =
      ((FinanceManager.get_category_summary
          { filename := "transactions.csv",
            transactions :=
              [{ amount := 30000,
                 category := { name := "Зарплата",
                               type := TransactionType.income },
                 date := some "2024-01-05", description := some "" },
               { amount := 5000,
                 category := { name := "Продукты",
                               type := TransactionType.expense },
                 date := some "2024-01-06", description := some "milk" }],
            categories := FinanceManager.defaultCategories }).map
        Prod.snd).sum :=
  FinanceManager.balance_eq_summary_total _ (by decide)

/-- Resolving the name of a catalog member against the catalog yields that
member (the hard-coded catalog has pairwise distinct names). -/
theorem find_default_category (c : Category)
    (hmem : c ∈ FinanceManager.defaultCategories) :
    FinanceManager.defaultCategories.find?
        (fun cat => some c.name == some cat.name) = some c := by
  fin_cases hmem <;> decide

/-- Loading the row written for a transaction whose category is in the
catalog succeeds and rebuilds the transaction, with `None` date or
description flattened to the empty string by the CSV writer. -/
theorem loadRow_serializeRow (t : Transaction)
    (hmem : t.category ∈ FinanceManager.defaultCategories) :
    FinanceManager.loadRow FinanceManager.defaultCategories
        (FinanceManager.serializeRow t) =
      Except.ok (some { amount := t.amount, category := t.category,
                        date := some (csvCell t.date),
                        description := some (csvCell t.description) }) := by
  have hfind := find_default_category t.category hmem
  simp only [FinanceManager.loadRow, FinanceManager.serializeRow, hfind]

/-- Loading the rows written for a list of catalog-respecting, well-formed
transactions reproduces the list. -/
theorem loadRows_serialize (ts : List Transaction)
    (hmem : ∀ t ∈ ts, t.category ∈ FinanceManager.defaultCategories)
    (hwf : ∀ t ∈ ts, t.date.isSome ∧ t.description.isSome) :
    FinanceManager.loadRows FinanceManager.defaultCategories
        (ts.map FinanceManager.serializeRow) = Except.ok ts := by
  induction ts with
  | nil => rfl
  | cons t ts ih =>
      rw [List.map_cons]
      have hm := hmem t (List.mem_cons_self t ts)
      have hw := hwf t (List.mem_cons_self t ts)
      obtain ⟨d, hd⟩ := Option.isSome_iff_exists.mp hw.1
      obtain ⟨ds, hds⟩ := Option.isSome_iff_exists.mp hw.2
      have hrow := loadRow_serializeRow t hm
      have hrest := ih (fun q hq => hmem q (List.mem_cons_of_mem t hq))
        (fun q hq => hwf q (List.mem_cons_of_mem t hq))
      simp only [FinanceManager.loadRows, hrow, hrest]
      rw [hd, hds]
      simp only [csvCell]
      rw [← hd, ← hds]

/-- C1: saving a ledger over the fixed catalog whose transactions all
reference catalog categories (and are well-formed: date and description
are strings, as the data model prescribes), then constructing a fresh
store from the written file, reproduces the identical ordered transaction
sequence — the fresh store equals the original. -/
theorem FinanceManager.save_load_round_trip (m : FinanceManager) (w : World)
    (hcat : m.categories = FinanceManager.defaultCategories)
    (hne : m.transactions ≠ [])
    (hmem : ∀ t ∈ m.transactions,
        t.category ∈ FinanceManager.defaultCategories)
    (hwf : ∀ t ∈ m.transactions, t.date.isSome ∧ t.description.isSome)
    (hw : w.writeFails = false) :
    ∃ w' : World, m.save_to_file w = Except.ok w' ∧
      FinanceManager.init m.filename w'.file = Except.ok m := by
  refine ⟨{ w with
      file := some (m.transactions.map FinanceManager.serializeRow) }, ?_, ?_⟩
  · simp [FinanceManager.save_to_file, hw]
  · unfold FinanceManager.init FinanceManager.load_from_file
    simp only [loadRows_serialize m.transactions hmem hwf, List.nil_append]
    have heta : m =
        { filename := m.filename, transactions := m.transactions,
          categories := FinanceManager.defaultCategories } := by
      rw [← hcat]
    rw [← heta]

/-- Witness for C1 at a one-transaction ledger and a healthy writer. -/
theorem FinanceManager.save_load_round_trip_witness :
    ∃ w' : World,
      FinanceManager.save_to_file
          { filename := "transactions.csv",
            transactions :=
              [{ amount := 30000,
                 category := { name := "Зарплата",
                               type := TransactionType.income },
                 date := some "2024-01-05", description := some "" }],
            categories := FinanceManager.defaultCategories }
          { file := none, writeFails := false } = Except.ok w' ∧
      FinanceManager.init "transactions.csv" w'.file =
        Except.ok
          { filename := "transactions.csv",
            transactions :=
              [{ amount := 30000,
                 category := { name := "Зарплата",
                               type := TransactionType.income },
                 date := some "2024-01-05", description := some "" }],
            categories := FinanceManager.defaultCategories } :=
  FinanceManager.save_load_round_trip _ _ rfl (by simp) (by decide) (by decide)
    rfl

/-- C5 counterexample: a file holding a single row whose category resolves
("Зарплата") but whose Amount cell `float()` rejects makes construction
raise a `ValueError` instead of silently skipping the row. -/
theorem FinanceManager.load_unparseable_raises :
    FinanceManager.init "transactions.csv"
        (some [{ amount := some (AmountCell.unparsable "abc"),
                 category := some "Зарплата", type := some "Доход",
                 date := some "2024-01-01", description := some "" }]) =
      Except.error "ValueError: could not convert string to float: abc" := by
  rfl

/-- C5 amended: a row whose category name has no catalog match is silently
skipped and the remaining rows still load; a row with a matching category
loads when its Amount parses and raises a propagating `ValueError` when it
does not. -/
theorem FinanceManager.load_skip_and_raise (cats : List Category)
    (r : CsvRow) (rest : List CsvRow) :
    (cats.find? (fun cat => r.category == some cat.name) = none →
      FinanceManager.loadRows cats (r :: rest) =
        FinanceManager.loadRows cats rest) ∧
    (∀ c, cats.find? (fun cat => r.category == some cat.name) = some c →
      (∀ q, r.amount = some (AmountCell.parsable q) →
        FinanceManager.loadRows cats (r :: rest) =
          (FinanceManager.loadRows cats rest).map
            (fun ts => { amount := q, category := c, date := r.date,
                         description := r.description } :: ts)) ∧
      (∀ s, r.amount = some (AmountCell.unparsable s) →
        FinanceManager.loadRows cats (r :: rest) =
          Except.error
            ("ValueError: could not convert string to float: " ++ s))) := by
  refine ⟨?_, ?_⟩
  · intro hfind
    simp only [FinanceManager.loadRows, FinanceManager.loadRow, hfind]
    cases hrest : FinanceManager.loadRows cats rest <;> simp
  · intro c hfind
    refine ⟨?_, ?_⟩
    · intro q hq
      simp only [FinanceManager.loadRows, FinanceManager.loadRow, hfind, hq]
      cases hrest : FinanceManager.loadRows cats rest <;> simp [Except.map]
    · intro s hs
      simp only [FinanceManager.loadRows, FinanceManager.loadRow, hfind, hs]

/-- Witness for C5's amended statement: the three behaviours at concrete
one-row files over the fixed catalog. -/
theorem FinanceManager.load_skip_and_raise_witness :
    (FinanceManager.loadRows FinanceManager.defaultCategories
        [{ amount := some (AmountCell.parsable 5),
           category := some "Непонятно", type := none, date := none,
           description := none }] =
      FinanceManager.loadRows FinanceManager.defaultCategories []) ∧
    (FinanceManager.loadRows FinanceManager.defaultCategories
        [{ amount := some (AmountCell.parsable 5),
           category := some "Зарплата", type := some "Доход",
           date := some "2024-01-01", description := some "" }] =
      (FinanceManager.loadRows FinanceManager.defaultCategories []).map
        (fun ts => { amount := 5,
                     category := { name := "Зарплата",
                                   type := TransactionType.income },
                     date := some "2024-01-01",
                     description := some "" } :: ts)) ∧
    (FinanceManager.loadRows FinanceManager.defaultCategories
        [{ amount := some (AmountCell.unparsable "abc"),
           category := some "Зарплата", type := some "Доход",
           date := some "2024-01-01", description := some "" }] =
      Except.error "ValueError: could not convert string to float: abc") :=
  ⟨(FinanceManager.load_skip_and_raise _ _ _).1 (by decide),
   ((FinanceManager.load_skip_and_raise _ _ _).2
      { name := "Зарплата", type := TransactionType.income }
      (by decide)).1 5 rfl,
   ((FinanceManager.load_skip_and_raise _ _ _).2
      { name := "Зарплата", type := TransactionType.income }
      (by decide)).2 "abc" rfl⟩

/-- C8 counterexample: the catalog of a freshly constructed store carries
the five Russian names, and no category is named "Salary" or
"Investments". -/
theorem FinanceManager.catalog_names_differ :
    (FinanceManager.init "transactions.csv" none).map
        (fun m => (m.categories.map Category.name,
                   m.categories.any (fun c => c.name == "Salary") ||
                     m.categories.any (fun c => c.name == "Investments"))) =
      Except.ok (["Зарплата", "Инвестиции", "Продукты", "Транспорт",
                  "Развлечения"], false) := by
  rfl

/-- C8 amended: every successfully constructed store carries exactly the
five hard-coded categories "Зарплата"/"Инвестиции" (income) and
"Продукты"/"Транспорт"/"Развлечения" (expense), and no operation changes
the catalog afterwards. -/
theorem FinanceManager.catalog_fixed (fn : String) (file : Option CsvFile)
    (m m' : FinanceManager) (t : Transaction) (i : Int) (w : World)
    (file' : Option CsvFile)
    (hinit : FinanceManager.init fn file = Except.ok m) :
    m.categories =
      [ { name := "Зарплата", type := TransactionType.income },
        { name := "Инвестиции", type := TransactionType.income },
        { name := "Продукты", type := TransactionType.expense },
        { name := "Транспорт", type := TransactionType.expense },
        { name := "Развлечения", type := TransactionType.expense } ] ∧
    (m.add_transaction t w).1.categories = m.categories ∧
    (m.delete_transaction i w).1.categories = m.categories ∧
    (m.load_from_file file' = Except.ok m' →
      m'.categories = m.categories) := by
  have hm : m.categories = FinanceManager.defaultCategories := by
    cases file with
    | none =>
        simp only [FinanceManager.init, FinanceManager.load_from_file]
          at hinit
        cases hinit
        rfl
    | some rows =>
        simp only [FinanceManager.init, FinanceManager.load_from_file]
          at hinit
        cases hload : FinanceManager.loadRows
            FinanceManager.defaultCategories rows with
        | ok ts =>
            rw [hload] at hinit
            cases hinit
            rfl
        | error e =>
            rw [hload] at hinit
            cases hinit
  refine ⟨hm, rfl, ?_, ?_⟩
  · unfold FinanceManager.delete_transaction
    split <;> rfl
  · intro hl
    cases file' with
    | none =>
        simp only [FinanceManager.load_from_file] at hl
        cases hl
        rfl
    | some rows =>
        simp only [FinanceManager.load_from_file] at hl
        cases hload : FinanceManager.loadRows m.categories rows with
        | ok ts =>
            rw [hload] at hl
            cases hl
            rfl
        | error e =>
            rw [hload] at hl
            cases hl

/-- Witness for C8's amended statement at a fresh empty store. -/
theorem FinanceManager.catalog_fixed_witness :
    ({ filename := "transactions.csv", transactions := [],
       categories := FinanceManager.defaultCategories } :
        FinanceManager).categories =
      [ { name := "Зарплата", type := TransactionType.income },
        { name := "Инвестиции", type := TransactionType.income },
        { name := "Продукты", type := TransactionType.expense },
        { name := "Транспорт", type := TransactionType.expense },
        { name := "Развлечения", type := TransactionType.expense } ] :=
  (FinanceManager.catalog_fixed "transactions.csv" none
    { filename := "transactions.csv", transactions := [],
      categories := FinanceManager.defaultCategories }
    { filename := "transactions.csv", transactions := [],
      categories := FinanceManager.defaultCategories }
    { amount := 1,
      category := { name := "Зарплата", type := TransactionType.income },
      date := some "2024-01-01", description := some "" }
    0 { file := none, writeFails := false } none rfl).1

/-- C9 counterexample: a short row (Description cell physically missing)
still loads but the stored description is Python `None`, not the empty
string. -/
theorem FinanceManager.missing_description_loads_none :
    (FinanceManager.init "transactions.csv"
        (some [{ amount := some (AmountCell.parsable 5),
                 category := some "Зарплата", type := some "Доход",
                 date := some "2024-01-01", description := none }])).map
        (fun m => m.transactions.map Transaction.description) =
      Except.ok [none] ∧ (none : Option String) ≠ some "" :=
  ⟨rfl, by simp⟩

/-- C9 amended: a row with a missing Description is still loaded, its
description being the reader's missing-field value `None` (not `""`); the
Type cell is never read, so the reconstructed transaction's category — and
hence its type — comes solely from resolving the Category cell against the
catalog. -/
theorem FinanceManager.load_missing_description (cats : List Category)
    (row : CsvRow) (c : Category) (q : ℚ) (s : Option String)
    (hfind : cats.find? (fun cat => row.category == some cat.name) = some c)
    (hamt : row.amount = some (AmountCell.parsable q))
    (hdesc : row.description = none) :
    FinanceManager.loadRow cats row =
      Except.ok (some { amount := q, category := c, date := row.date,
                        description := none }) ∧
    FinanceManager.loadRow cats { row with type := s } =
      FinanceManager.loadRow cats row := by
  refine ⟨?_, rfl⟩
  simp only [FinanceManager.loadRow, hfind, hamt, hdesc]

/-- Witness for C9's amended statement at a concrete short row. -/
theorem FinanceManager.load_missing_description_witness :
    FinanceManager.loadRow FinanceManager.defaultCategories
        { amount := some (AmountCell.parsable 5),
          category := some "Зарплата", type := some "Доход",
          date := some "2024-01-01", description := none } =
      Except.ok (some { amount := 5,
                        category := { name := "Зарплата",
                                      type := TransactionType.income },
                        date := some "2024-01-01",
                        description := none }) :=
  (FinanceManager.load_missing_description _ _
    { name := "Зарплата", type := TransactionType.income } 5 none
    (by decide) rfl rfl).1
